import Mathlib

/-!
Verification of the ConcurrentLogHandler locking + rotation core.

The repository ships only its packaging script under `src/`; the handler
module itself (`cloghandler.py`, with its `portalocker` lock helper) is not
part of the source tree.  Every definition below that embeds handler
behaviour is therefore modelled from the specification document and marked
`Modelled from the spec:`.

Two complementary models are developed:

* a path-level file-system model `FS` (contents indexed by backup
  generation number) for the backup-rotation algorithm and for whole-run
  record accounting, and
* an identity-level model `World` (file contents indexed by an
  inode-like identity token, with the path map on top) for the per-call
  `emit` protocol: lock acquisition with timeout, re-validation of the
  open handle, write/flush failure handling and unconditional release.
-/

namespace CLog

/-- A rendered log record: an identifying tag plus its size in bytes.
Records are what `emit(renderedBytes)` receives from the logging
framework. -/
structure Rec where
  rid : Nat
  len : Nat
deriving DecidableEq, Repr

/-- The byte content of a log file, as the list of records appended to it. -/
abbrev Content := List Rec

/-- Size in bytes of a file's content. -/
def contentSize (c : Content) : Nat := (c.map Rec.len).sum

/-- Number of occurrences of a record in a file or stream of records. -/
def countRec (x : Rec) (c : Content) : Nat := c.countP (fun y => decide (y = x))

/-- Modelled from the spec: `lockPath` is derived from `primaryPath` by
replacing only the trailing `.log` suffix with `.lock` (or appending
`.lock` when no recognized suffix exists) — never by substring
search-and-replace elsewhere in the path (missing code:
`cloghandler.ConcurrentRotatingFileHandler.__init__`). -/
def lockPathOf (primaryPath : String) : String :=
  if primaryPath.data.reverse.take 4 = ['g', 'o', 'l', '.'] then
    String.mk (primaryPath.data.take (primaryPath.data.length - 4)) ++ ".lock"
  else primaryPath ++ ".lock"

/-- Modelled from the spec: the immutable per-sink configuration
`{ primaryPath, lockPath, maxBytes, backupCount }`. -/
structure LogTarget where
  primaryPath : String
  lockPath : String
  maxBytes : Int
  backupCount : Nat

/-- Modelled from the spec: construction derives `lockPath` from
`primaryPath`. -/
def mkTarget (primaryPath : String) (maxBytes : Int) (backupCount : Nat) : LogTarget :=
  { primaryPath := primaryPath, lockPath := lockPathOf primaryPath,
    maxBytes := maxBytes, backupCount := backupCount }

/-- Modelled from the spec: `RotationPolicy.shouldRotate`, true iff
`currentSize ≥ maxBytes` and `maxBytes > 0` (missing code:
`cloghandler.ConcurrentRotatingFileHandler.shouldRollover`). -/
def shouldRotate (currentSize maxBytes : Int) : Bool :=
  decide (0 < maxBytes) && decide (maxBytes ≤ currentSize)

/-- Modelled from the spec: `RotationPolicy.retentionPlan`, the ordered
sequence of generation indices to keep, namely `1..backupCount`. -/
def retentionPlan (backupCount : Nat) : List Nat := List.range' 1 backupCount

/-! ## Path-level file-system model

A state records the content of the primary log file and of each backup
generation `primaryPath.j` (`gens j`); `none` means the path does not
exist on disk. -/

/-- Modelled from the spec: the on-disk layout around one `LogTarget` —
the active file at `primaryPath` and the backup generations
`primaryPath.1 … primaryPath.N`. -/
structure FS where
  primary : Option Content
  gens : Nat → Option Content

/-- The empty disk: no primary file, no backups. -/
def emptyFS : FS := { primary := none, gens := fun _ => none }

/-- Modelled from the spec: one step of `BackupRotator.rotate` — if
`primaryPath.i` exists, delete any pre-existing `primaryPath.(i+1)` and
rename `primaryPath.i` onto it (missing code:
`cloghandler.ConcurrentRotatingFileHandler.doRollover`). -/
def rotateStep (i : Nat) (fs : FS) : FS :=
  if (fs.gens i).isSome then
    { fs with gens := fun j => if j = i + 1 then fs.gens i
                               else if j = i then none else fs.gens j }
  else fs

/-- The descending index list `[m, m-1, …, 1]`. -/
def descList : Nat → List Nat
  | 0 => []
  | m + 1 => (m + 1) :: descList m

/-- The rotation loop: apply `rotateStep` for `i` from `m` down to `1`. -/
def shiftLoop (m : Nat) (fs : FS) : FS :=
  (descList m).foldl (fun s i => rotateStep i s) fs

/-- Modelled from the spec: the final step of rotation — delete any
pre-existing `primaryPath.1` and rename `primaryPath` onto it; if the
primary file no longer exists (a peer already rotated) this is not an
error and nothing is renamed. -/
def fsRenamePrimary (fs : FS) : FS :=
  match fs.primary with
  | none => fs
  | some c => { primary := none, gens := fun j => if j = 1 then some c else fs.gens j }

/-- Modelled from the spec: the caller reopens a fresh empty file at
`primaryPath` after rotation. -/
def openFresh (fs : FS) : FS := { fs with primary := some [] }

/-- Modelled from the spec: `BackupRotator.rotate` — shift generations
`backupCount-1 … 1` up by one in strictly descending order, move the
primary file to generation 1, and open a fresh empty primary. -/
def rotate (backupCount : Nat) (fs : FS) : FS :=
  openFresh (fsRenamePrimary (shiftLoop (backupCount - 1) fs))

/-- Modelled from the spec: appending one rendered record to the primary
log file (an append-mode write creates the file when absent). -/
def writeFS (r : Rec) (fs : FS) : FS :=
  { fs with primary := some (fs.primary.getD [] ++ [r]) }

/-- Modelled from the spec: one `emit` critical section as it acts on the
shared disk while the advisory lock is held — append the record, re-stat
the size, and rotate when the policy says so.  The second component
counts rotations performed. -/
def stepFS (t : LogTarget) (st : FS × Nat) (pr : Nat × Rec) : FS × Nat :=
  if shouldRotate (contentSize ((writeFS pr.2 st.1).primary.getD [])) t.maxBytes then
    (rotate t.backupCount (writeFS pr.2 st.1), st.2 + 1)
  else
    (writeFS pr.2 st.1, st.2)

/-- Modelled from the spec: a whole run — an interleaving of `emit` calls
from several processes (each schedule entry is a process id paired with
its record; the advisory lock makes each critical section atomic, so an
interleaving is a schedule).  Starts from an empty disk. -/
def runFS (t : LogTarget) (sched : List (Nat × Rec)) : FS × Nat :=
  sched.foldl (stepFS t) (emptyFS, 0)

/-- The content found at backup generation `j` (empty when absent). -/
def fileAt (fs : FS) (j : Nat) : Content := (fs.gens j).getD []

/-- Concatenated content of generations `j, j+1, …, j+n-1`. -/
def gensCat (fs : FS) : Nat → Nat → Content
  | _, 0 => []
  | j, n + 1 => fileAt fs j ++ gensCat fs (j + 1) n

/-- The union of the primary log file and its backups `1..backupCount`. -/
def allRecs (backupCount : Nat) (fs : FS) : Content :=
  fs.primary.getD [] ++ gensCat fs 1 backupCount

/-- Invariant: no backup generation beyond the number of rotations
performed so far exists (and the unused index 0 never exists). -/
def CleanFS (n : Nat) (fs : FS) : Prop :=
  ∀ j, (j = 0 ∨ n < j) → fs.gens j = none

/-! ## Properties of one rotation step -/

theorem rotateStep_primary (i : Nat) (fs : FS) : (rotateStep i fs).primary = fs.primary := by
  unfold rotateStep; split <;> rfl

theorem rotateStep_gens_of_ne (i j : Nat) (fs : FS) (h1 : j ≠ i) (h2 : j ≠ i + 1) :
    (rotateStep i fs).gens j = fs.gens j := by
  unfold rotateStep; split
  · simp [h1, h2]
  · rfl

theorem rotateStep_gens_target (i : Nat) (fs : FS) :
    (rotateStep i fs).gens (i + 1) =
      if (fs.gens i).isSome then fs.gens i else fs.gens (i + 1) := by
  by_cases h : (fs.gens i).isSome <;> simp [rotateStep, h]

theorem rotateStep_gens_src (i : Nat) (fs : FS) : (rotateStep i fs).gens i = none := by
  have hne : i ≠ i + 1 := by omega
  by_cases h : (fs.gens i).isSome
  · simp [rotateStep, h, hne]
  · have hnone : fs.gens i = none := Option.not_isSome_iff_eq_none.mp h
    simp [rotateStep, h, hnone]

theorem shiftLoop_zero (fs : FS) : shiftLoop 0 fs = fs := rfl

theorem shiftLoop_succ (m : Nat) (fs : FS) :
    shiftLoop (m + 1) fs = shiftLoop m (rotateStep (m + 1) fs) := rfl

theorem shiftLoop_primary (m : Nat) (fs : FS) : (shiftLoop m fs).primary = fs.primary := by
  induction m generalizing fs with
  | zero => rfl
  | succ m ih => rw [shiftLoop_succ, ih, rotateStep_primary]

theorem shiftLoop_gens_high (m : Nat) (fs : FS) (j : Nat) (hj : m + 2 ≤ j) :
    (shiftLoop m fs).gens j = fs.gens j := by
  induction m generalizing fs with
  | zero => rfl
  | succ m ih =>
    rw [shiftLoop_succ, ih _ (by omega), rotateStep_gens_of_ne _ _ _ (by omega) (by omega)]

theorem shiftLoop_gens_zero (m : Nat) (fs : FS) : (shiftLoop m fs).gens 0 = fs.gens 0 := by
  induction m generalizing fs with
  | zero => rfl
  | succ m ih =>
    rw [shiftLoop_succ, ih, rotateStep_gens_of_ne _ _ _ (by omega) (by omega)]

theorem shiftLoop_gens_top (m : Nat) (fs : FS) (hm : 1 ≤ m) :
    (shiftLoop m fs).gens (m + 1) =
      if (fs.gens m).isSome then fs.gens m else fs.gens (m + 1) := by
  cases m with
  | zero => omega
  | succ m' =>
    rw [shiftLoop_succ, shiftLoop_gens_high _ _ _ (by omega), rotateStep_gens_target]

theorem shiftLoop_gens_one (m : Nat) (fs : FS) (hm : 1 ≤ m) :
    (shiftLoop m fs).gens 1 = none := by
  induction m generalizing fs with
  | zero => omega
  | succ m ih =>
    rw [shiftLoop_succ]
    cases Nat.eq_zero_or_pos m with
    | inl h0 =>
      subst h0
      rw [shiftLoop_zero, rotateStep_gens_src]
    | inr hpos => exact ih _ hpos

theorem shiftLoop_gens_mid (m : Nat) (fs : FS) (j : Nat) (h2 : 2 ≤ j) (hj : j ≤ m) :
    (shiftLoop m fs).gens j = fs.gens (j - 1) := by
  induction m generalizing fs with
  | zero => omega
  | succ m ih =>
    rw [shiftLoop_succ]
    by_cases hcase : j ≤ m
    · rw [ih _ hcase, rotateStep_gens_of_ne _ _ _ (by omega) (by omega)]
    · have hj' : j = m + 1 := by omega
      subst hj'
      rw [shiftLoop_gens_top _ _ (by omega),
        rotateStep_gens_of_ne _ _ _ (by omega) (by omega), rotateStep_gens_src]
      have hm1 : m + 1 - 1 = m := by omega
      rw [hm1]
      cases hg : fs.gens m <;> simp [hg]

/-! ## Properties of a full rotation -/

theorem openFresh_primary (fs : FS) : (openFresh fs).primary = some [] := rfl

theorem openFresh_gens (fs : FS) (j : Nat) : (openFresh fs).gens j = fs.gens j := rfl

theorem fsRenamePrimary_gens_of_ne (fs : FS) (j : Nat) (h : j ≠ 1) :
    (fsRenamePrimary fs).gens j = fs.gens j := by
  cases hp : fs.primary <;> simp [fsRenamePrimary, hp, h]

theorem fsRenamePrimary_gens_one (fs : FS) (c : Content) (hp : fs.primary = some c) :
    (fsRenamePrimary fs).gens 1 = some c := by
  simp [fsRenamePrimary, hp]

theorem rotate_eq (m : Nat) (fs : FS) :
    rotate (m + 1) fs = openFresh (fsRenamePrimary (shiftLoop m fs)) := by
  simp [rotate]

theorem rotate_primary (bc : Nat) (fs : FS) : (rotate bc fs).primary = some [] := rfl

theorem rotate_gens_one (bc : Nat) (fs : FS) (c : Content) (hp : fs.primary = some c) :
    (rotate bc fs).gens 1 = some c := by
  have hp' : (shiftLoop (bc - 1) fs).primary = some c := by rw [shiftLoop_primary, hp]
  unfold rotate
  rw [openFresh_gens, fsRenamePrimary_gens_one _ _ hp']

theorem rotate_gens_mid (bc : Nat) (fs : FS) (j : Nat) (h2 : 2 ≤ j) (hj : j + 1 ≤ bc) :
    (rotate bc fs).gens j = fs.gens (j - 1) := by
  obtain ⟨m, rfl⟩ : ∃ m, bc = m + 1 := ⟨bc - 1, by omega⟩
  rw [rotate_eq, openFresh_gens, fsRenamePrimary_gens_of_ne _ _ (by omega),
    shiftLoop_gens_mid _ _ _ h2 (by omega)]

theorem rotate_gens_top (bc : Nat) (fs : FS) (hbc : 2 ≤ bc) :
    (rotate bc fs).gens bc =
      if (fs.gens (bc - 1)).isSome then fs.gens (bc - 1) else fs.gens bc := by
  obtain ⟨m, rfl⟩ : ∃ m, bc = m + 1 := ⟨bc - 1, by omega⟩
  have hm : m + 1 - 1 = m := by omega
  rw [rotate_eq, openFresh_gens, fsRenamePrimary_gens_of_ne _ _ (by omega),
    shiftLoop_gens_top _ _ (by omega), hm]

theorem rotate_gens_high (bc : Nat) (fs : FS) (j : Nat) (hbc : 1 ≤ bc) (hj : bc + 1 ≤ j) :
    (rotate bc fs).gens j = fs.gens j := by
  obtain ⟨m, rfl⟩ : ∃ m, bc = m + 1 := ⟨bc - 1, by omega⟩
  rw [rotate_eq, openFresh_gens, fsRenamePrimary_gens_of_ne _ _ (by omega),
    shiftLoop_gens_high _ _ _ (by omega)]

theorem rotate_gens_zero (bc : Nat) (fs : FS) : (rotate bc fs).gens 0 = fs.gens 0 := by
  unfold rotate
  rw [openFresh_gens, fsRenamePrimary_gens_of_ne _ _ (by omega), shiftLoop_gens_zero]

/-- On a clean state (no generation beyond `n` exists, `n < bc`), a
rotation shifts every kept generation up by exactly one. -/
theorem rotate_gens_shift (bc : Nat) (fs : FS) (n k : Nat) (hcl : CleanFS n fs) (hn : n < bc)
    (hk : 1 ≤ k) (hk2 : k + 1 ≤ bc) :
    (rotate bc fs).gens (k + 1) = fs.gens k := by
  by_cases h : k + 2 ≤ bc
  · rw [rotate_gens_mid _ _ _ (by omega) (by omega)]
    simp
  · have hkbc : k + 1 = bc := by omega
    have hbn : fs.gens bc = none := hcl bc (Or.inr (by omega))
    rw [hkbc, rotate_gens_top _ _ (by omega)]
    have hk1 : bc - 1 = k := by omega
    rw [hk1]
    cases hg : fs.gens k <;> simp [hg, hbn]

theorem rotate_clean (bc : Nat) (fs : FS) (n : Nat) (hbc : 1 ≤ bc) (hcl : CleanFS n fs)
    (hn : n < bc) : CleanFS (n + 1) (rotate bc fs) := by
  intro j hj
  rcases hj with h0 | hgt
  · subst h0
    rw [rotate_gens_zero]
    exact hcl 0 (Or.inl rfl)
  · by_cases hle : j ≤ bc
    · have hsh := rotate_gens_shift bc fs n (j - 1) hcl hn (by omega) (by omega)
      rw [show j - 1 + 1 = j from by omega] at hsh
      rw [hsh]
      exact hcl (j - 1) (Or.inr (by omega))
    · rw [rotate_gens_high _ _ _ hbc (by omega)]
      exact hcl j (Or.inr (by omega))

/-! ## Record accounting -/

theorem countRec_append (x : Rec) (a b : Content) :
    countRec x (a ++ b) = countRec x a + countRec x b := by
  simp [countRec]

theorem gensCat_congr (fs fs' : FS) :
    ∀ (n j : Nat), (∀ k, j ≤ k → k < j + n → fs'.gens k = fs.gens k) →
      gensCat fs' j n = gensCat fs j n := by
  intro n
  induction n with
  | zero => intro j _; rfl
  | succ n ih =>
    intro j h
    show fileAt fs' j ++ gensCat fs' (j + 1) n = fileAt fs j ++ gensCat fs (j + 1) n
    have hhd : fileAt fs' j = fileAt fs j := by
      unfold fileAt
      rw [h j le_rfl (by omega)]
    rw [hhd, ih (j + 1) (fun k hk1 hk2 => h k (by omega) (by omega))]

theorem gensCat_shift (fs fs' : FS) :
    ∀ (n a : Nat), (∀ k, a ≤ k → k < a + n → fs'.gens (k + 1) = fs.gens k) →
      gensCat fs' (a + 1) n = gensCat fs a n := by
  intro n
  induction n with
  | zero => intro a _; rfl
  | succ n ih =>
    intro a h
    show fileAt fs' (a + 1) ++ gensCat fs' (a + 1 + 1) n = fileAt fs a ++ gensCat fs (a + 1) n
    have hhd : fileAt fs' (a + 1) = fileAt fs a := by
      unfold fileAt
      rw [h a le_rfl (by omega)]
    rw [hhd, ih (a + 1) (fun k hk1 hk2 => h k (by omega) (by omega))]

theorem gensCat_snoc (fs : FS) :
    ∀ (n j : Nat), gensCat fs j (n + 1) = gensCat fs j n ++ fileAt fs (j + n) := by
  intro n
  induction n with
  | zero =>
    intro j
    show fileAt fs j ++ ([] : Content) = ([] : Content) ++ fileAt fs (j + 0)
    simp
  | succ n ih =>
    intro j
    show fileAt fs j ++ gensCat fs (j + 1) (n + 1) =
      (fileAt fs j ++ gensCat fs (j + 1) n) ++ fileAt fs (j + (n + 1))
    rw [ih (j + 1), List.append_assoc, show j + 1 + n = j + (n + 1) from by omega]

theorem gensCat_empty (n j : Nat) : gensCat emptyFS j n = [] := by
  induction n generalizing j with
  | zero => rfl
  | succ n ih =>
    show fileAt emptyFS j ++ gensCat emptyFS (j + 1) n = []
    rw [ih (j + 1)]
    rfl

/-- On a clean state a rotation preserves the union of primary and backup
contents exactly: nothing is lost, nothing is duplicated. -/
theorem rotate_allRecs (bc : Nat) (fs : FS) (n : Nat) (hbc : 1 ≤ bc) (hcl : CleanFS n fs)
    (hn : n < bc) (c : Content) (hp : fs.primary = some c) :
    allRecs bc (rotate bc fs) = allRecs bc fs := by
  obtain ⟨m, rfl⟩ : ∃ m, bc = m + 1 := ⟨bc - 1, by omega⟩
  have h1 : (rotate (m + 1) fs).gens 1 = some c := rotate_gens_one _ _ _ hp
  have hshift : gensCat (rotate (m + 1) fs) (1 + 1) m = gensCat fs 1 m :=
    gensCat_shift fs (rotate (m + 1) fs) m 1
      (fun k hk1 hk2 => rotate_gens_shift (m + 1) fs n k hcl hn hk1 (by omega))
  have htop : fileAt fs (1 + m) = [] := by
    unfold fileAt
    rw [hcl (1 + m) (Or.inr (by omega))]
    rfl
  show (rotate (m + 1) fs).primary.getD [] ++
      (fileAt (rotate (m + 1) fs) 1 ++ gensCat (rotate (m + 1) fs) (1 + 1) m) =
    fs.primary.getD [] ++ gensCat fs 1 (m + 1)
  rw [rotate_primary, hshift, gensCat_snoc fs m 1, htop, hp]
  unfold fileAt
  rw [h1]
  simp

theorem writeFS_gens (r : Rec) (fs : FS) (j : Nat) : (writeFS r fs).gens j = fs.gens j := rfl

theorem allRecs_write (bc : Nat) (r : Rec) (fs : FS) :
    allRecs bc (writeFS r fs) = (fs.primary.getD [] ++ [r]) ++ gensCat fs 1 bc := by
  unfold allRecs
  have hg : gensCat (writeFS r fs) 1 bc = gensCat fs 1 bc :=
    gensCat_congr fs (writeFS r fs) bc 1 (fun k _ _ => rfl)
  rw [hg]
  rfl

/-- One critical section preserves the cleanliness invariant and adds the
emitted record exactly once to the union of primary and backups, as long
as the rotation budget is not exceeded. -/
theorem stepFS_clean_count (t : LogTarget) (st : FS × Nat) (pr : Nat × Rec)
    (h1 : CleanFS st.2 st.1) (h2 : (stepFS t st pr).2 ≤ t.backupCount) :
    CleanFS (stepFS t st pr).2 (stepFS t st pr).1 ∧
    ∀ x, countRec x (allRecs t.backupCount (stepFS t st pr).1) =
      countRec x (allRecs t.backupCount st.1) + countRec x [pr.2] := by
  by_cases hrot :
      shouldRotate (contentSize ((writeFS pr.2 st.1).primary.getD [])) t.maxBytes = true
  · simp only [stepFS, hrot, if_true] at h2 ⊢
    have hbc : 1 ≤ t.backupCount := by omega
    have hn : st.2 < t.backupCount := by omega
    have hclw : CleanFS st.2 (writeFS pr.2 st.1) := fun j hj => h1 j hj
    have hp : (writeFS pr.2 st.1).primary = some (st.1.primary.getD [] ++ [pr.2]) := rfl
    refine ⟨rotate_clean _ _ _ hbc hclw hn, fun x => ?_⟩
    rw [rotate_allRecs _ _ _ hbc hclw hn _ hp, allRecs_write]
    unfold allRecs
    rw [countRec_append, countRec_append, countRec_append]
    omega
  · simp only [stepFS, hrot, if_false, Bool.false_eq_true] at h2 ⊢
    refine ⟨fun j hj => h1 j hj, fun x => ?_⟩
    rw [allRecs_write]
    unfold allRecs
    rw [countRec_append, countRec_append, countRec_append]
    omega

theorem stepFS_mono (t : LogTarget) (st : FS × Nat) (pr : Nat × Rec) :
    st.2 ≤ (stepFS t st pr).2 := by
  unfold stepFS
  split
  · exact Nat.le_succ _
  · exact le_rfl

theorem foldl_stepFS_mono (t : LogTarget) :
    ∀ (l : List (Nat × Rec)) (st : FS × Nat), st.2 ≤ (l.foldl (stepFS t) st).2 := by
  intro l
  induction l with
  | nil => intro st; exact le_rfl
  | cons pr rest ih => intro st; exact le_trans (stepFS_mono t st pr) (ih _)

theorem runFS_aux (t : LogTarget) :
    ∀ (sched : List (Nat × Rec)) (st : FS × Nat),
      CleanFS st.2 st.1 → (sched.foldl (stepFS t) st).2 ≤ t.backupCount →
      CleanFS (sched.foldl (stepFS t) st).2 (sched.foldl (stepFS t) st).1 ∧
      ∀ x, countRec x (allRecs t.backupCount (sched.foldl (stepFS t) st).1) =
        countRec x (allRecs t.backupCount st.1) + countRec x (sched.map Prod.snd) := by
  intro sched
  induction sched with
  | nil =>
    intro st h1 _
    refine ⟨h1, fun x => ?_⟩
    simp [countRec]
  | cons pr rest ih =>
    intro st h1 h2
    rw [List.foldl_cons] at h2 ⊢
    have hstep2 : (stepFS t st pr).2 ≤ t.backupCount :=
      le_trans (foldl_stepFS_mono t rest _) h2
    obtain ⟨hc1, hc2⟩ := stepFS_clean_count t st pr h1 hstep2
    obtain ⟨hr1, hr2⟩ := ih (stepFS t st pr) hc1 h2
    refine ⟨hr1, fun x => ?_⟩
    rw [hr2 x, hc2 x]
    show _ = countRec x (allRecs t.backupCount st.1) + countRec x (pr.2 :: rest.map Prod.snd)
    have hhd : countRec x (pr.2 :: rest.map Prod.snd) =
        countRec x [pr.2] + countRec x (rest.map Prod.snd) := by
      show countRec x ([pr.2] ++ rest.map Prod.snd) = _
      rw [countRec_append]
    rw [hhd]
    omega

/-! ## Claim theorems: whole-run record accounting, rotation order,
backup retention -/

/-- C1 (amended): for every schedule of records emitted by any number of
processes sharing one `LogTarget`, with no write failure, every emitted
record appears exactly once across the union of the primary file and its
backups — provided the run performs at most `backupCount` rotations, so
that no backup generation is evicted by retention. -/
theorem run_exactly_once_of_no_eviction (t : LogTarget) (sched : List (Nat × Rec))
    (hrot : (runFS t sched).2 ≤ t.backupCount) :
    ∀ x, countRec x (allRecs t.backupCount (runFS t sched).1) =
      countRec x (sched.map Prod.snd) := by
  intro x
  unfold runFS
  obtain ⟨-, hco⟩ := runFS_aux t sched (emptyFS, 0) (fun j _ => rfl) hrot
  rw [hco x]
  have hempty : allRecs t.backupCount emptyFS = [] := by
    unfold allRecs
    rw [gensCat_empty]
    rfl
  rw [hempty]
  simp [countRec]

/-- A target with `maxBytes = 1` and a single backup generation. -/
def ctrexTarget : LogTarget :=
  { primaryPath := "app.log", lockPath := "app.lock", maxBytes := 1, backupCount := 1 }

/-- Two records of one byte each, emitted by two processes. -/
def ctrexSched : List (Nat × Rec) := [(0, ⟨0, 1⟩), (1, ⟨1, 1⟩)]

/-- C1 counterexample: with `backupCount = 1` and `maxBytes = 1`, two
one-byte records each trigger a rotation; the second rotation evicts the
backup holding the first record, so a record that was emitted once
appears zero times across the primary file and all backups. -/
theorem run_exactly_once_ctrex :
    countRec ⟨0, 1⟩ (ctrexSched.map Prod.snd) = 1 ∧
    countRec ⟨0, 1⟩ (allRecs ctrexTarget.backupCount (runFS ctrexTarget ctrexSched).1) = 0 := by
  constructor
  · decide
  · decide

/-- A no-eviction run: three one-byte records against `maxBytes = 2`,
`backupCount = 2` perform exactly one rotation. -/
def witTarget : LogTarget :=
  { primaryPath := "app.log", lockPath := "app.lock", maxBytes := 2, backupCount := 2 }

/-- Schedule for the no-eviction run. -/
def witSched : List (Nat × Rec) := [(0, ⟨0, 1⟩), (1, ⟨1, 1⟩), (0, ⟨2, 1⟩)]

/-- Witness for `run_exactly_once_of_no_eviction` at a concrete run. -/
theorem run_exactly_once_witness :
    countRec ⟨0, 1⟩ (allRecs witTarget.backupCount (runFS witTarget witSched).1) =
      countRec ⟨0, 1⟩ (witSched.map Prod.snd) :=
  run_exactly_once_of_no_eviction witTarget witSched (by decide) ⟨0, 1⟩

/-- C3: `rotate` shifts the backup generations strictly in descending
order — every kept generation `i` (taken from highest to lowest) lands at
`i+1` with the pre-existing `i+1` deleted first, the primary file lands
at generation 1 (deleting any pre-existing generation 1), and a fresh
empty file is opened at `primaryPath`; paths above `backupCount` are
untouched. -/
theorem rotate_desc_shift (bc : Nat) (fs : FS) (hbc : 1 ≤ bc) (hp : fs.primary.isSome = true) :
    (rotate bc fs).primary = some [] ∧
    (rotate bc fs).gens 1 = fs.primary ∧
    (∀ j, 2 ≤ j → j + 1 ≤ bc → (rotate bc fs).gens j = fs.gens (j - 1)) ∧
    (2 ≤ bc → (rotate bc fs).gens bc =
      if (fs.gens (bc - 1)).isSome then fs.gens (bc - 1) else fs.gens bc) ∧
    (∀ j, bc + 1 ≤ j → (rotate bc fs).gens j = fs.gens j) := by
  obtain ⟨c, hc⟩ := Option.isSome_iff_exists.mp hp
  refine ⟨rotate_primary bc fs, ?_, fun j h2 hj => rotate_gens_mid bc fs j h2 hj,
    fun h => rotate_gens_top bc fs h, fun j hj => rotate_gens_high bc fs j hbc hj⟩
  rw [rotate_gens_one bc fs c hc, hc]

/-- A concrete three-generation disk used to witness `rotate_desc_shift`. -/
def fsWit3 : FS :=
  { primary := some [⟨10, 1⟩],
    gens := fun j => if j = 1 then some [⟨11, 1⟩] else if j = 2 then some [⟨12, 1⟩] else none }

/-- Witness for `rotate_desc_shift` at a concrete disk. -/
theorem rotate_desc_shift_witness :
    (rotate 3 fsWit3).primary = some [] ∧
    (rotate 3 fsWit3).gens 1 = fsWit3.primary ∧
    (rotate 3 fsWit3).gens 2 = fsWit3.gens 1 := by
  have h := rotate_desc_shift 3 fsWit3 (by omega) (by rfl)
  exact ⟨h.1, h.2.1, h.2.2.1 2 (by omega) (by omega)⟩

theorem mem_retentionPlan (j bc : Nat) : j ∈ retentionPlan bc ↔ 1 ≤ j ∧ j ≤ bc := by
  rw [retentionPlan, List.mem_range'_1]
  omega

theorem retentionPlan_length (bc : Nat) : (retentionPlan bc).length = bc := by
  simp [retentionPlan]

/-- C4: after a rotation of a state whose backups all lie in
`1..backupCount`, every existing backup generation still lies in
`retentionPlan backupCount = 1..backupCount` (so at most `backupCount`
backups exist and generations above `backupCount` stay deleted), and
generation 1 holds exactly the rotated-out primary content. -/
theorem rotate_retention (bc : Nat) (fs : FS) (hbc : 1 ≤ bc)
    (hcl : ∀ j, j = 0 ∨ bc < j → fs.gens j = none) :
    (∀ j, j = 0 ∨ bc < j → (rotate bc fs).gens j = none) ∧
    (∀ j, ((rotate bc fs).gens j).isSome = true → j ∈ retentionPlan bc) ∧
    (retentionPlan bc).length = bc ∧
    (fs.primary.isSome = true → (rotate bc fs).gens 1 = fs.primary) := by
  have habove : ∀ j, j = 0 ∨ bc < j → (rotate bc fs).gens j = none := by
    intro j hj
    rcases hj with h0 | hgt
    · subst h0
      rw [rotate_gens_zero]
      exact hcl 0 (Or.inl rfl)
    · rw [rotate_gens_high _ _ _ hbc (by omega)]
      exact hcl j (Or.inr hgt)
  refine ⟨habove, fun j hj => ?_, retentionPlan_length bc, fun hp => ?_⟩
  · rw [mem_retentionPlan]
    by_contra hcon
    have hout : j = 0 ∨ bc < j := by omega
    rw [habove j hout] at hj
    exact absurd hj (by simp)
  · obtain ⟨c, hc⟩ := Option.isSome_iff_exists.mp hp
    rw [rotate_gens_one bc fs c hc, hc]

/-- C2: `shouldRotate` is a pure function of its two arguments, true iff
`currentSize ≥ maxBytes` and `maxBytes > 0`; any non-positive `maxBytes`
disables rotation for every size. -/
theorem shouldRotate_iff (currentSize maxBytes : Int) :
    (shouldRotate currentSize maxBytes = true ↔ maxBytes ≤ currentSize ∧ 0 < maxBytes) ∧
    (maxBytes ≤ 0 → shouldRotate currentSize maxBytes = false) := by
  constructor
  · simp [shouldRotate, and_comm]
  · intro h
    simp [shouldRotate]
    omega

/-- Witness for `shouldRotate_iff` at concrete sizes. -/
theorem shouldRotate_iff_witness :
    shouldRotate 7 5 = true ∧ shouldRotate 7 0 = false :=
  ⟨(shouldRotate_iff 7 5).1.mpr (by omega), (shouldRotate_iff 7 0).2 (by omega)⟩

/-! ## Lock-file naming -/

/-- C8: the lock path is derived from the primary path by acting on the
trailing suffix only — a path ending in `.log` has exactly that final
suffix replaced by `.lock` (same stem), any other path gets `.lock`
appended — never by substring replacement elsewhere; in particular the
internal `.log` occurrences of `/var/log/app.log.source.log` are left
intact. -/
theorem lockPath_suffix_only :
    (∀ l : List Char, lockPathOf (String.mk (l ++ ['.', 'l', 'o', 'g'])) =
      String.mk l ++ ".lock") ∧
    (∀ p : String, p.data.reverse.take 4 ≠ ['g', 'o', 'l', '.'] →
      lockPathOf p = p ++ ".lock") ∧
    lockPathOf "/var/log/app.log.source.log" = "/var/log/app.log.source.lock" ∧
    lockPathOf "/var/log/mycompany.logging.mysource.log" =
      "/var/log/mycompany.logging.mysource.lock" := by
  refine ⟨fun l => ?_, fun p hp => ?_, by decide, by decide⟩
  · unfold lockPathOf
    have hcond : (String.mk (l ++ ['.', 'l', 'o', 'g'])).data.reverse.take 4 =
        ['g', 'o', 'l', '.'] := by
      show (l ++ ['.', 'l', 'o', 'g']).reverse.take 4 = _
      rw [List.reverse_append]
      show (['g', 'o', 'l', '.'] ++ l.reverse).take 4 = _
      rw [List.take_left' (by rfl)]
    rw [if_pos hcond]
    congr 2
    show (l ++ ['.', 'l', 'o', 'g']).take ((l ++ ['.', 'l', 'o', 'g']).length - 4) = l
    rw [List.length_append, show l.length + (['.', 'l', 'o', 'g'] : List Char).length - 4
        = l.length from by simp, List.take_left]
  · unfold lockPathOf
    rw [if_neg hp]

/-- Witness for `lockPath_suffix_only`: the suffix-free case and a
concrete stem. -/
theorem lockPath_suffix_only_witness :
    lockPathOf "noext" = "noext.lock" ∧
    lockPathOf (String.mk (['a', 'p', 'p'] ++ ['.', 'l', 'o', 'g'])) =
      String.mk ['a', 'p', 'p'] ++ ".lock" :=
  ⟨lockPath_suffix_only.2.1 "noext" (by decide), lockPath_suffix_only.1 ['a', 'p', 'p']⟩

/-! ## The advisory file lock -/

/-- Modelled from the spec: `AdvisoryFileLock` — the dedicated lock-file
path plus the held OS handle when acquired, `none` when not held
(missing code: the bundled `portalocker` module and the handler's lock
management). -/
structure AdvisoryFileLock where
  lockPath : String
  handle : Option Nat
deriving DecidableEq, Repr

/-- Modelled from the spec: `release()` unlocks and forgets the handle
when held; when not held there is nothing to do; it never raises and
never deletes the lock file. -/
def release (l : AdvisoryFileLock) : AdvisoryFileLock := { l with handle := none }

/-- C7: `release` is idempotent — releasing twice equals releasing once,
and releasing a lock that is not held leaves the state unchanged (and,
being a total function, it never raises). -/
theorem release_idem (l : AdvisoryFileLock) :
    release (release l) = release l ∧ (l.handle = none → release l = l) := by
  refine ⟨rfl, fun h => ?_⟩
  cases l
  simp_all [release]

/-- A lock that is not held. -/
def lockWit : AdvisoryFileLock := { lockPath := "app.lock", handle := none }

/-- Witness for `release_idem` at a concrete unheld lock. -/
theorem release_idem_witness :
    release (release lockWit) = release lockWit ∧ release lockWit = lockWit :=
  ⟨(release_idem lockWit).1, (release_idem lockWit).2 rfl⟩

/-- A concrete disk with one backup used to witness `rotate_retention`. -/
def fsWit2 : FS :=
  { primary := some [⟨20, 1⟩], gens := fun j => if j = 1 then some [⟨21, 1⟩] else none }

/-- Witness for `rotate_retention` at a concrete disk. -/
theorem rotate_retention_witness :
    (∀ j, j = 0 ∨ 2 < j → (rotate 2 fsWit2).gens j = none) ∧
    (rotate 2 fsWit2).gens 1 = fsWit2.primary := by
  have hcl : ∀ j, j = 0 ∨ 2 < j → fsWit2.gens j = none := by
    intro j hj
    have hne : j ≠ 1 := by omega
    simp [fsWit2, hne]
  have h := rotate_retention 2 fsWit2 (by omega) hcl
  exact ⟨h.1, h.2.2.2 rfl⟩

/-! ## Identity-level model of the per-call emit protocol

Files are tracked by an inode-like identity token, with the path map on
top, so that a rename moves a file identity to another path while an
open handle keeps pointing at the same identity.  This is what makes a
handle go stale when a peer process rotates the file. -/

/-- Modelled from the spec: the failure taxonomy of the act of logging. -/
inductive LogErr
  | lockTimeout
  | writeFailed
  | rotationFailed
deriving DecidableEq, Repr

/-- Modelled from the spec: construction-time misconfiguration, the one
error surfaced to the caller. -/
inductive CtorErr
  | configurationError
deriving DecidableEq, Repr

/-- Injected OS outcomes for one emit call: whether the advisory lock is
acquired within the timeout, whether the write and flush succeed, and
whether the rotation renames succeed. -/
structure EmitEnv where
  lockOk : Bool
  writeOk : Bool
  rotateOk : Bool
deriving DecidableEq, Repr

/-- Modelled from the spec: the process-local sink state — the open
stream's cached file identity (device+inode token), `none` when closed. -/
structure Sink where
  handleId : Option Nat
deriving DecidableEq, Repr

/-- Modelled from the spec: the shared disk seen through file
identities — `primId` and `genId j` give the identity of the file
currently at `primaryPath` and `primaryPath.j`, `blob` gives each
identity's content (`none` once deleted), and `nextId` is the next
fresh identity. -/
structure World where
  primId : Option Nat
  genId : Nat → Option Nat
  blob : Nat → Option Content
  nextId : Nat

/-- Modelled from the spec: delete the file at generation path `i` — the
content is gone and the path no longer exists. -/
def delGenW (i : Nat) (w : World) : World :=
  match w.genId i with
  | none => w
  | some fid =>
    { w with blob := fun k => if k = fid then none else w.blob k,
             genId := fun j => if j = i then none else w.genId j }

/-- Modelled from the spec: one loop step of rotation at the identity
level — if generation `i` exists, first delete any file at generation
`i+1`, then rename generation `i` onto that path; the renamed file keeps
its identity and content, only the path map changes. -/
def rotStepW (i : Nat) (w : World) : World :=
  match w.genId i with
  | none => w
  | some fid =>
    let w1 := delGenW (i + 1) w
    { w1 with genId := fun j => if j = i + 1 then some fid
                                else if j = i then none else w1.genId j }

/-- Modelled from the spec: the final rotation step — delete any
pre-existing generation 1 and rename the primary file onto it; a missing
primary (a peer rotated first) is not an error. -/
def renamePrimW (w : World) : World :=
  match w.primId with
  | none => w
  | some fid =>
    let w1 := delGenW 1 w
    { w1 with primId := none,
              genId := fun j => if j = 1 then some fid else w1.genId j }

/-- The identity-level rotation loop, `i` from `m` down to `1`. -/
def shiftLoopW (m : Nat) (w : World) : World :=
  (descList m).foldl (fun s i => rotStepW i s) w

/-- Modelled from the spec: the re-validation/open step of `emit` — when
a file exists at `primaryPath` the handle is (re)attached to exactly
that file's identity; when none exists, an append-mode open creates a
fresh empty file with a fresh identity.  Returns the updated disk and
the identity now open; any stale cached handle is discarded. -/
def ensureOpen (w : World) (handleId : Option Nat) : World × Nat :=
  match w.primId with
  | some fid => (w, fid)
  | none =>
    ({ primId := some w.nextId, genId := w.genId,
       blob := fun k => if k = w.nextId then some ([] : Content) else w.blob k,
       nextId := w.nextId + 1 }, w.nextId)

/-- Open a fresh empty file at `primaryPath` when none is there. -/
def openFreshW (w : World) : World := (ensureOpen w none).1

/-- Modelled from the spec: `BackupRotator.rotate` at the identity
level, followed by the caller opening a fresh empty primary file. -/
def rotateW (bc : Nat) (w : World) : World :=
  openFreshW (renamePrimW (shiftLoopW (bc - 1) w))

/-- Append one record to the file with identity `h`. -/
def appendW (h : Nat) (r : Rec) (w : World) : World :=
  { w with blob := fun k => if k = h then some ((w.blob h).getD [] ++ [r]) else w.blob k }

/-- Modelled from the spec: the fallible write+flush step; on failure the
error is thrown to the enclosing handler inside `emit`. -/
def writeStepE (env : EmitEnv) (h : Nat) (r : Rec) (w : World) : Except LogErr World :=
  if env.writeOk then Except.ok (appendW h r w) else Except.error LogErr.writeFailed

/-- Modelled from the spec: the fallible rotation step; on failure the
error is thrown to the enclosing handler inside `emit`. -/
def rotateStepE (env : EmitEnv) (bc : Nat) (w : World) : Except LogErr World :=
  if env.rotateOk then Except.ok (rotateW bc w) else Except.error LogErr.rotationFailed

/-- Observable events of one `emit` call. -/
structure EmitLog where
  timeoutWarned : Bool
  heldLock : Bool
  recordLost : Bool
  rotationFailed : Bool
  rotated : Bool
  lockReleased : Bool
  wroteTo : Option Nat
  raised : Option LogErr
deriving DecidableEq, Repr

/-- Result of one `emit` call: the new disk, the new sink state, and the
observable events. -/
structure EmitOut where
  world : World
  sink : Sink
  log : EmitLog

/-- Modelled from the spec: `ConcurrentRotatingSink.emit` — acquire the
advisory lock (on timeout, log a warning and proceed to write anyway
rather than drop the record), re-validate the open handle against the
on-disk identity of `primaryPath` and reopen when stale, append and
flush (a failure is caught locally: only that record is lost), re-stat
the size and rotate when the policy says so (a rotation failure is
caught and the original file remains in place), and release the lock
unconditionally on every exit path.  Nothing is raised to the caller
(missing code: `cloghandler.ConcurrentRotatingFileHandler.emit`). -/
def emit (t : LogTarget) (env : EmitEnv) (w : World) (s : Sink) (r : Rec) : EmitOut :=
  let held := env.lockOk
  let warned := !env.lockOk
  let p := ensureOpen w s.handleId
  match writeStepE env p.2 r p.1 with
  | Except.error _ =>
    { world := p.1, sink := { handleId := some p.2 },
      log := { timeoutWarned := warned, heldLock := held, recordLost := true,
               rotationFailed := false, rotated := false, lockReleased := true,
               wroteTo := none, raised := none } }
  | Except.ok w2 =>
    if shouldRotate ((contentSize ((w2.blob p.2).getD [])) : Int) t.maxBytes then
      match rotateStepE env t.backupCount w2 with
      | Except.error _ =>
        { world := w2, sink := { handleId := some p.2 },
          log := { timeoutWarned := warned, heldLock := held, recordLost := false,
                   rotationFailed := true, rotated := false, lockReleased := true,
                   wroteTo := some p.2, raised := none } }
      | Except.ok w3 =>
        { world := w3, sink := { handleId := w3.primId },
          log := { timeoutWarned := warned, heldLock := held, recordLost := false,
                   rotationFailed := false, rotated := true, lockReleased := true,
                   wroteTo := some p.2, raised := none } }
    else
      { world := w2, sink := { handleId := some p.2 },
        log := { timeoutWarned := warned, heldLock := held, recordLost := false,
                 rotationFailed := false, rotated := false, lockReleased := true,
                 wroteTo := some p.2, raised := none } }

/-- Modelled from the spec: the fallible flush performed by `close`. -/
def closeCore (flushOk : Bool) (s : Sink) : Except LogErr Sink :=
  if flushOk then Except.ok { handleId := none } else Except.error LogErr.writeFailed

/-- Modelled from the spec: `close()` — flush and close the stream, then
release; a flush failure is swallowed.  The second component is what
escapes to the caller. -/
def closeS (flushOk : Bool) (s : Sink) : Sink × Option LogErr :=
  match closeCore flushOk s with
  | Except.ok s' => (s', none)
  | Except.error _ => ({ handleId := none }, none)

/-- Modelled from the spec: construction validates the path and the
target's writability and surfaces `ConfigurationError` when either is
invalid. -/
def construct (pathValid writable : Bool) : Except CtorErr Sink :=
  if pathValid && writable then Except.ok { handleId := none }
  else Except.error CtorErr.configurationError

/-- Content of the file currently at `primaryPath` (empty when absent). -/
def primContentW (w : World) : Content := (w.primId.bind w.blob).getD []

/-- Content of the file currently at generation path `j`. -/
def fileAtGenW (w : World) (j : Nat) : Content := ((w.genId j).bind w.blob).getD []

/-- Concatenated content of generation paths `j, …, j+n-1`. -/
def gensCatW (w : World) : Nat → Nat → Content
  | _, 0 => []
  | j, n + 1 => fileAtGenW w j ++ gensCatW w (j + 1) n

/-- The union of the primary file and its backups `1..bc`. -/
def allRecsW (bc : Nat) (w : World) : Content := primContentW w ++ gensCatW w 1 bc

/-! ## Lemmas about the identity-level operations -/

theorem ensureOpen_primId (w : World) (h : Option Nat) :
    (ensureOpen w h).1.primId = some (ensureOpen w h).2 := by
  cases hp : w.primId <;> simp [ensureOpen, hp]

theorem gensCatW_congr (w w' : World) :
    ∀ (n j : Nat), (∀ k, j ≤ k → k < j + n → fileAtGenW w' k = fileAtGenW w k) →
      gensCatW w' j n = gensCatW w j n := by
  intro n
  induction n with
  | zero => intro j _; rfl
  | succ n ih =>
    intro j h
    show fileAtGenW w' j ++ gensCatW w' (j + 1) n = fileAtGenW w j ++ gensCatW w (j + 1) n
    rw [h j le_rfl (by omega), ih (j + 1) (fun k hk1 hk2 => h k (by omega) (by omega))]

theorem ensureOpen_allRecsW (w : World) (h : Option Nat) (bc : Nat)
    (hwf : ∀ j fid, w.genId j = some fid → fid < w.nextId) :
    allRecsW bc (ensureOpen w h).1 = allRecsW bc w := by
  cases hp : w.primId with
  | some fid => simp [ensureOpen, hp]
  | none =>
    unfold allRecsW
    have h1 : primContentW (ensureOpen w h).1 = [] := by
      simp [ensureOpen, hp, primContentW]
    have h2 : primContentW w = [] := by
      simp [primContentW, hp]
    have h3 : gensCatW (ensureOpen w h).1 1 bc = gensCatW w 1 bc := by
      apply gensCatW_congr
      intro k _ _
      unfold fileAtGenW
      cases hg : w.genId k with
      | none => simp [ensureOpen, hp, hg]
      | some fid =>
        have hlt : fid < w.nextId := hwf k fid hg
        have hne : fid ≠ w.nextId := by omega
        simp [ensureOpen, hp, hg, hne]
    rw [h1, h2, h3]

theorem appendW_primId (h : Nat) (r : Rec) (w : World) : (appendW h r w).primId = w.primId := rfl

theorem primContentW_eq_blob (w : World) (fid : Nat) (hp : w.primId = some fid) :
    primContentW w = (w.blob fid).getD [] := by
  unfold primContentW
  rw [hp]
  rfl

theorem ensureOpen_append_content (w : World) (h : Option Nat) (r : Rec) :
    ((appendW (ensureOpen w h).2 r (ensureOpen w h).1).blob (ensureOpen w h).2).getD [] =
      primContentW (ensureOpen w h).1 ++ [r] := by
  have hp := ensureOpen_primId w h
  simp [appendW, primContentW, hp]

theorem delGenW_blob (i : Nat) (w : World) (k : Nat) :
    (delGenW i w).blob k = w.blob k ∨ (delGenW i w).blob k = none := by
  unfold delGenW
  cases hg : w.genId i with
  | none => exact Or.inl rfl
  | some fid =>
    by_cases hk : k = fid
    · right; simp [hk]
    · left; simp [hk]

theorem delGenW_nextId (i : Nat) (w : World) : (delGenW i w).nextId = w.nextId := by
  unfold delGenW
  cases w.genId i <;> rfl

theorem rotStepW_blob (i : Nat) (w : World) (k : Nat) :
    (rotStepW i w).blob k = w.blob k ∨ (rotStepW i w).blob k = none := by
  unfold rotStepW
  cases hg : w.genId i with
  | none => exact Or.inl rfl
  | some fid => exact delGenW_blob (i + 1) w k

theorem rotStepW_nextId (i : Nat) (w : World) : (rotStepW i w).nextId = w.nextId := by
  unfold rotStepW
  cases hg : w.genId i with
  | none => rfl
  | some fid => exact delGenW_nextId (i + 1) w

theorem shiftLoopW_blob (m : Nat) (w : World) (k : Nat) :
    (shiftLoopW m w).blob k = w.blob k ∨ (shiftLoopW m w).blob k = none := by
  induction m generalizing w with
  | zero => exact Or.inl rfl
  | succ m ih =>
    have hstep : shiftLoopW (m + 1) w = shiftLoopW m (rotStepW (m + 1) w) := rfl
    rw [hstep]
    rcases ih (rotStepW (m + 1) w) with h | h
    · rw [h]
      exact rotStepW_blob (m + 1) w k
    · exact Or.inr h

theorem shiftLoopW_nextId (m : Nat) (w : World) : (shiftLoopW m w).nextId = w.nextId := by
  induction m generalizing w with
  | zero => rfl
  | succ m ih =>
    have hstep : shiftLoopW (m + 1) w = shiftLoopW m (rotStepW (m + 1) w) := rfl
    rw [hstep, ih, rotStepW_nextId]

theorem renamePrimW_blob (w : World) (k : Nat) :
    (renamePrimW w).blob k = w.blob k ∨ (renamePrimW w).blob k = none := by
  unfold renamePrimW
  cases hp : w.primId with
  | none => exact Or.inl rfl
  | some fid => exact delGenW_blob 1 w k

theorem renamePrimW_nextId (w : World) : (renamePrimW w).nextId = w.nextId := by
  unfold renamePrimW
  cases w.primId with
  | none => rfl
  | some fid => exact delGenW_nextId 1 w

theorem openFreshW_blob_lt (w : World) (k : Nat) (hk : k < w.nextId) :
    (openFreshW w).blob k = w.blob k := by
  unfold openFreshW ensureOpen
  cases hp : w.primId with
  | some fid => rfl
  | none =>
    have hne : k ≠ w.nextId := by omega
    simp [hne]

theorem rotateW_blob_lt (bc : Nat) (w : World) (k : Nat) (hk : k < w.nextId) :
    (rotateW bc w).blob k = w.blob k ∨ (rotateW bc w).blob k = none := by
  unfold rotateW
  have hn : (renamePrimW (shiftLoopW (bc - 1) w)).nextId = w.nextId := by
    rw [renamePrimW_nextId, shiftLoopW_nextId]
  have h3 : (openFreshW (renamePrimW (shiftLoopW (bc - 1) w))).blob k =
      (renamePrimW (shiftLoopW (bc - 1) w)).blob k :=
    openFreshW_blob_lt _ _ (by rw [hn]; exact hk)
  rw [h3]
  rcases renamePrimW_blob (shiftLoopW (bc - 1) w) k with h2 | h2
  · rw [h2]
    exact shiftLoopW_blob (bc - 1) w k
  · exact Or.inr h2

/-! ## Claim theorems: the emit protocol -/

/-- C5: nothing arising from the act of logging escapes to the caller —
for every environment (lock timeout, write failure, rotation failure
included) `emit` raises nothing and `close` raises nothing; the only
surfaced error is `ConfigurationError` at construction, exactly for an
invalid path or a non-writable target. -/
theorem emit_never_raises (t : LogTarget) (env : EmitEnv) (w : World) (s : Sink) (r : Rec)
    (flushOk : Bool) (s' : Sink) (pathValid writable : Bool) :
    (emit t env w s r).log.raised = none ∧
    (closeS flushOk s').2 = none ∧
    (construct pathValid writable = Except.error CtorErr.configurationError ↔
      ¬(pathValid = true ∧ writable = true)) := by
  refine ⟨?_, ?_, ?_⟩
  · rcases env with ⟨lo, wo, ro⟩
    cases wo
    · simp [emit, writeStepE]
    · cases ro <;> simp [emit, writeStepE, rotateStepE] <;> split <;> rfl
  · cases flushOk <;> rfl
  · cases pathValid <;> cases writable <;> simp [construct]

/-- C6: a write/flush failure (such as disk full) loses only that single
record — `emit` raises nothing, the union of on-disk contents is
unchanged, the call still reports having held and released the advisory
lock. -/
theorem emit_write_failure (t : LogTarget) (rOk : Bool) (w : World) (s : Sink) (r : Rec)
    (hwf : ∀ j fid, w.genId j = some fid → fid < w.nextId) :
    (emit t ⟨true, false, rOk⟩ w s r).log.raised = none ∧
    (emit t ⟨true, false, rOk⟩ w s r).log.heldLock = true ∧
    (emit t ⟨true, false, rOk⟩ w s r).log.lockReleased = true ∧
    (emit t ⟨true, false, rOk⟩ w s r).log.recordLost = true ∧
    allRecsW t.backupCount (emit t ⟨true, false, rOk⟩ w s r).world =
      allRecsW t.backupCount w := by
  have hworld : (emit t ⟨true, false, rOk⟩ w s r).world = (ensureOpen w s.handleId).1 := by
    simp [emit, writeStepE]
  refine ⟨by simp [emit, writeStepE], by simp [emit, writeStepE],
    by simp [emit, writeStepE], by simp [emit, writeStepE], ?_⟩
  rw [hworld]
  exact ensureOpen_allRecsW w s.handleId t.backupCount hwf

/-- An empty disk, a closed sink and a one-byte record, used by the
emit-protocol witnesses. -/
def emptyWorld : World := { primId := none, genId := fun _ => none, blob := fun _ => none, nextId := 0 }

/-- A closed sink. -/
def closedSink : Sink := { handleId := none }

/-- A target whose `maxBytes = 0` disables rotation. -/
def noRotTarget : LogTarget :=
  { primaryPath := "app.log", lockPath := "app.lock", maxBytes := 0, backupCount := 2 }

/-- Witness for `emit_write_failure` on a concrete empty disk. -/
theorem emit_write_failure_witness :
    (emit noRotTarget ⟨true, false, true⟩ emptyWorld closedSink ⟨0, 1⟩).log.raised = none ∧
    (emit noRotTarget ⟨true, false, true⟩ emptyWorld closedSink ⟨0, 1⟩).log.heldLock = true ∧
    (emit noRotTarget ⟨true, false, true⟩ emptyWorld closedSink ⟨0, 1⟩).log.lockReleased = true ∧
    (emit noRotTarget ⟨true, false, true⟩ emptyWorld closedSink ⟨0, 1⟩).log.recordLost = true ∧
    allRecsW noRotTarget.backupCount
        (emit noRotTarget ⟨true, false, true⟩ emptyWorld closedSink ⟨0, 1⟩).world =
      allRecsW noRotTarget.backupCount emptyWorld := by
  have hwf : ∀ j fid, emptyWorld.genId j = some fid → fid < emptyWorld.nextId := by
    intro j fid h
    exact absurd h (by simp [emptyWorld])
  exact emit_write_failure noRotTarget true emptyWorld closedSink ⟨0, 1⟩ hwf

/-- C9: when lock acquisition times out, the record is not dropped — for
every target, disk, sink and record, `emit` logs a warning, proceeds
without holding the lock, marks nothing lost, raises nothing, and the
bytes are written through the re-validated handle attached to the file
currently at `primaryPath`. -/
theorem emit_timeout_writes_anyway (t : LogTarget) (w : World) (s : Sink) (r : Rec) :
    (emit t ⟨false, true, true⟩ w s r).log.timeoutWarned = true ∧
    (emit t ⟨false, true, true⟩ w s r).log.heldLock = false ∧
    (emit t ⟨false, true, true⟩ w s r).log.recordLost = false ∧
    (emit t ⟨false, true, true⟩ w s r).log.raised = none ∧
    (emit t ⟨false, true, true⟩ w s r).log.wroteTo = some (ensureOpen w s.handleId).2 := by
  simp only [emit, writeStepE, if_true]
  split
  · simp [rotateStepE]
  · simp

/-- C10: after acquiring the lock and before writing, `emit`
re-validates the handle against the on-disk identity of `primaryPath`:
the handle it writes through is exactly the file currently at
`primaryPath` (reopening when the cached handle differs), and a stale
previously-open file — one no longer at `primaryPath` — never receives
the record: its content is unchanged (or the file was deleted by
eviction), in every environment. -/
theorem emit_revalidates (t : LogTarget) (env : EmitEnv) (w : World) (s : Sink) (r : Rec)
    (old : Nat) (hold : s.handleId = some old) (hlt : old < w.nextId)
    (hstale : w.primId ≠ some old) :
    (ensureOpen w s.handleId).1.primId = some (ensureOpen w s.handleId).2 ∧
    (env.writeOk = true →
      (emit t env w s r).log.wroteTo = some (ensureOpen w s.handleId).2) ∧
    ((emit t env w s r).world.blob old = w.blob old ∨
      (emit t env w s r).world.blob old = none) := by
  have hne : (ensureOpen w s.handleId).2 ≠ old := by
    cases hp : w.primId with
    | some fid =>
      have : (ensureOpen w s.handleId).2 = fid := by simp [ensureOpen, hp]
      rw [this]
      intro hcon
      exact hstale (by rw [hp, hcon])
    | none =>
      have : (ensureOpen w s.handleId).2 = w.nextId := by simp [ensureOpen, hp]
      omega
  have hblob1 : (ensureOpen w s.handleId).1.blob old = w.blob old := by
    cases hp : w.primId with
    | some fid => simp [ensureOpen, hp]
    | none =>
      have hneq : old ≠ w.nextId := by omega
      simp [ensureOpen, hp, hneq]
  have hnext1 : old < (ensureOpen w s.handleId).1.nextId := by
    cases hp : w.primId with
    | some fid => simpa [ensureOpen, hp] using hlt
    | none =>
      have : (ensureOpen w s.handleId).1.nextId = w.nextId + 1 := by simp [ensureOpen, hp]
      omega
  rcases env with ⟨lo, wo, ro⟩
  cases wo
  · -- write failure: the world is the ensureOpen result
    refine ⟨ensureOpen_primId w s.handleId, by intro hcon; exact absurd hcon (by simp), ?_⟩
    have hworld : (emit t ⟨lo, false, ro⟩ w s r).world = (ensureOpen w s.handleId).1 := by
      simp [emit, writeStepE]
    rw [hworld, hblob1]
    exact Or.inl rfl
  · -- write succeeds at the revalidated identity
    have hblob2 : (appendW (ensureOpen w s.handleId).2 r (ensureOpen w s.handleId).1).blob old
        = w.blob old := by
      have : old ≠ (ensureOpen w s.handleId).2 := fun hcon => hne hcon.symm
      simp [appendW, this]
      exact hblob1
    have hnext2 : old <
        (appendW (ensureOpen w s.handleId).2 r (ensureOpen w s.handleId).1).nextId := hnext1
    refine ⟨ensureOpen_primId w s.handleId, fun _ => ?_, ?_⟩
    · simp only [emit, writeStepE, if_true]
      split
      · cases ro <;> simp [rotateStepE]
      · rfl
    · simp only [emit, writeStepE, if_true]
      split
      · cases ro with
        | false => simp [rotateStepE, hblob2]
        | true =>
          simp only [rotateStepE, if_true]
          rcases rotateW_blob_lt t.backupCount
              (appendW (ensureOpen w s.handleId).2 r (ensureOpen w s.handleId).1) old hnext2
            with hc | hc
          · rw [hc, hblob2]
            exact Or.inl rfl
          · exact Or.inr hc
      · rw [hblob2]
        exact Or.inl rfl

/-- A disk whose primary file was rotated away by a peer: the file with
identity 0 now sits at generation 1 and a fresh identity 1 is the
primary; a sink still caches identity 0. -/
def staleWorld : World :=
  { primId := some 1,
    genId := fun j => if j = 1 then some 0 else none,
    blob := fun k => if k = 0 then some [⟨7, 1⟩] else if k = 1 then some [] else none,
    nextId := 2 }

/-- A sink whose cached handle (identity 0) is stale for `staleWorld`. -/
def staleSink : Sink := { handleId := some 0 }

/-- Witness for `emit_revalidates`: a stale handle is re-validated and
the rotated-away file receives nothing. -/
theorem emit_revalidates_witness :
    (ensureOpen staleWorld staleSink.handleId).1.primId =
      some (ensureOpen staleWorld staleSink.handleId).2 ∧
    (emit noRotTarget ⟨true, true, true⟩ staleWorld staleSink ⟨2, 1⟩).log.wroteTo =
      some (ensureOpen staleWorld staleSink.handleId).2 ∧
    ((emit noRotTarget ⟨true, true, true⟩ staleWorld staleSink ⟨2, 1⟩).world.blob 0 =
        staleWorld.blob 0 ∨
      (emit noRotTarget ⟨true, true, true⟩ staleWorld staleSink ⟨2, 1⟩).world.blob 0 = none) := by
  have h := emit_revalidates noRotTarget ⟨true, true, true⟩ staleWorld staleSink ⟨2, 1⟩ 0
    rfl (by decide) (by decide)
  exact ⟨h.1, h.2.1 rfl, h.2.2⟩

end CLog
